import Mathlib

/-
Verification of the batch_geocode geocoding engine.

This file gives a shallow embedding, in Lean 4, of the core resolution engine
of the GISforHealth/batch_geocode repository:

* the geometry helpers and the GeocodedLocation result type
  (src/geocode/query_funcs.py, class GeocodedLocation),
* the vetting / "best"-compositing algorithm
  (src/geocode/query_funcs.py, WebGeocodingManager.vet),
* the four provider parsers (GMInterface, OSMInterface, GNInterface,
  FuzzyGInterface .populate_locs) and their country-filter logic,
* the batch column reordering (src/geocode/batch_geocode.py, rearrange_fields)
  and the pre-geocoding configuration checks (geocode_from_flask,
  src/geocode/utilities.py check_keys_for_tools / validate_iso2).

Modelling conventions:
* Python floats are modelled as rationals (coordinates) embedded into the
  reals where trigonometry is involved (the haversine distance).
* Python dicts keyed by provider-rank strings are modelled as association
  lists in insertion order (Python dicts preserve insertion order).
* fallible parsing is modelled with Except: an uncaught Python exception is
  an Except.error; a caught-and-skipped one disappears into the result.
* Lean String primitives that do not reduce in the kernel (toLower, <,
  takeWhile) are replaced by equivalent functions over String.data, mirroring
  the Python semantics of str.lower, str comparison and s[0:s.index(c)].
-/

namespace BatchGeocode

/-! ## Python string semantics -/
/-- Character-wise lower-casing, the semantics of Python str.lower on the
ASCII strings this program manipulates. -/
def pyLower (s : String) : String := ⟨s.data.map Char.toLower⟩

/-- Character-wise upper-casing, the semantics of Python str.upper. -/
def pyUpper (s : String) : String := ⟨s.data.map Char.toUpper⟩

/-- Lexicographic less-or-equal on char lists by code point: the semantics of
Python string comparison. -/
def charListLe : List Char → List Char → Bool
  | [], _ => true
  | _ :: _, [] => false
  | a :: as, b :: bs => if a < b then true else if b < a then false else charListLe as bs

/-- Comparison of strings under the key str.lower, as used by
sorted(..., key=lambda s: s.lower()) in rearrange_fields. -/
def lowerLe (a b : String) : Prop := charListLe (pyLower a).data (pyLower b).data = true

instance : DecidableRel lowerLe := fun a b => by unfold lowerLe; infer_instance

instance : IsTotal String lowerLe := by
  refine ⟨fun x y => ?_⟩
  unfold lowerLe
  generalize (pyLower x).data = as
  generalize (pyLower y).data = bs
  induction as generalizing bs with
  | nil => left; rfl
  | cons a as ih =>
    cases bs with
    | nil => right; rfl
    | cons b bs =>
      rcases lt_trichotomy a b with h | h | h
      · left; simp [charListLe, h]
      · subst h
        rcases ih bs with h | h
        · left; simp [charListLe, h]
        · right; simp [charListLe, h]
      · right; simp [charListLe, h, not_lt_of_lt h]

instance : IsTrans String lowerLe := by
  refine ⟨fun x y z h1 h2 => ?_⟩
  unfold lowerLe at h1 h2 ⊢
  have cons_iff : ∀ (a b : Char) (as bs : List Char),
      charListLe (a :: as) (b :: bs) = true ↔ a < b ∨ (a = b ∧ charListLe as bs = true) := by
    intro a b as bs
    rcases lt_trichotomy a b with h | h | h
    · simp [charListLe, h]
    · subst h; simp [charListLe, lt_irrefl]
    · simp [charListLe, h, not_lt_of_lt h]
      intro h2; subst h2; exact absurd h (lt_irrefl a)
  have key : ∀ (as bs cs : List Char), charListLe as bs = true →
      charListLe bs cs = true → charListLe as cs = true := by
    intro as
    induction as with
    | nil => intro bs cs h1 h2; rfl
    | cons a as ih =>
      intro bs cs h1 h2
      cases bs with
      | nil => simp [charListLe] at h1
      | cons b bs =>
        cases cs with
        | nil => simp [charListLe] at h2
        | cons c cs =>
          rw [cons_iff] at h1 h2 ⊢
          rcases h1 with h1 | ⟨rfl, h1⟩
          · rcases h2 with h2 | ⟨rfl, h2⟩
            · exact Or.inl (lt_trans h1 h2)
            · exact Or.inl h1
          · rcases h2 with h2 | ⟨rfl, h2⟩
            · exact Or.inl h2
            · exact Or.inr ⟨rfl, ih bs cs h1 h2⟩
  exact key _ _ _ h1 h2

/-- first-occurrence deduplication: the semantics Python set()/pandas unique()
give to the element collection (we fix first-occurrence order; the Python set
iteration order is arbitrary, and no claim below depends on the order of
duplicate-free ties). -/
def pyUnique (l : List String) : List String :=
  l.foldl (fun acc x => if x ∈ acc then acc else acc ++ [x]) []

/-- the part of a column name before its first underscore: the semantics of
c[0:c.index('_')] in rearrange_fields. Python raises ValueError when no
underscore is present; every geocoding column contains one, and theorems about
rearrange_fields hypothesise this, so we totalise with takeWhile (which agrees
whenever an underscore occurs). -/
def colPfx (c : String) : String := ⟨c.data.takeWhile (fun ch => ch != '_')⟩

/-! ## Geometry and the GeocodedLocation result type
(src/geocode/query_funcs.py, class GeocodedLocation) -/
/-- minimum of a list of rationals, the semantics of Python min() over a
generator. Python raises ValueError on an empty argument; every call site in
the source passes a nonempty list (every constructed GeocodedLocation owns
1 or 2 points, and the composite is only built from a nonempty pool), so we
totalise with 0 for the empty list. -/
def listMin : List ℚ → ℚ
  | [] => 0
  | x :: xs => xs.foldl min x

/-- maximum of a list of rationals (Python max(), same conventions as
listMin). -/
def listMax : List ℚ → ℚ
  | [] => 0
  | x :: xs => xs.foldl max x

/-- the namedtuple BoundingBox with fields min_x, min_y, max_x, max_y built in
GeocodedLocation.get_bounding_box. x is longitude, y is latitude. -/
structure BoundingBox where
  min_x : ℚ
  min_y : ℚ
  max_x : ℚ
  max_y : ℚ
deriving DecidableEq, Repr

/-- the uniform candidate-location value type. points_list holds the
(pt[0], pt[1]) pairs exactly as the source stores them; the code elsewhere
reads pt[0] as longitude and pt[1] as latitude. -/
structure GeocodedLocation where
  points_list : List (ℚ × ℚ)
  address_name : String
  location_type : String
  source : String
deriving DecidableEq, Repr

/-- GeocodedLocation.get_bounding_box: component-wise min/max over the owned
points (min(pt[0]...), min(pt[1]...), max(pt[0]...), max(pt[1]...)). -/
def get_bounding_box (pts : List (ℚ × ℚ)) : BoundingBox :=
  ⟨listMin (pts.map Prod.fst), listMin (pts.map Prod.snd),
   listMax (pts.map Prod.fst), listMax (pts.map Prod.snd)⟩

/-- self.bound_box, computed from points_list at construction and never
mutated afterwards, so recomputing it on demand is equivalent. -/
def GeocodedLocation.bound_box (loc : GeocodedLocation) : BoundingBox :=
  get_bounding_box loc.points_list

/-- arithmetic mean of a list of rationals: np.nanmean on the floats of the source
(rationals have no NaN, which models the NaN-free case). -/
def listMean (l : List ℚ) : ℚ := l.sum / l.length

/-- GeocodedLocation.get_centroid: (mean of pt[0] values, mean of pt[1]
values). -/
def GeocodedLocation.get_centroid (loc : GeocodedLocation) : ℚ × ℚ :=
  (listMean (loc.points_list.map Prod.fst), listMean (loc.points_list.map Prod.snd))

/-- GeocodedLocation.get_points_list. -/
def GeocodedLocation.get_points_list (loc : GeocodedLocation) : List (ℚ × ℚ) :=
  loc.points_list

/-- degree-to-radian conversion used inside the haversine package. -/
noncomputable def toRadians (deg : ℝ) : ℝ := deg * (Real.pi / 180)

/-- mean Earth radius in km, the constant of the haversine package. -/
noncomputable def avgEarthRadiusKm : ℝ := 6371.0088

/-- the distance of the haversine package: both arguments are (latitude,
longitude) pairs in decimal degrees; spherical-earth great-circle distance
in kilometers (2 r asin(sqrt(sin^2(dlat/2) + cos lat1 cos lat2
sin^2(dlng/2)))). -/
noncomputable def haversine (pa pb : ℝ × ℝ) : ℝ :=
  2 * avgEarthRadiusKm * Real.arcsin (Real.sqrt (
    Real.sin ((toRadians pb.1 - toRadians pa.1) / 2) ^ 2 +
    Real.cos (toRadians pa.1) * Real.cos (toRadians pb.1) *
      Real.sin ((toRadians pb.2 - toRadians pa.2) / 2) ^ 2))

/-- GeocodedLocation.calc_haversine_distance(a_long, a_lat, b_long, b_lat):
repackages the coordinates as (lat, long) pairs and calls haversine. -/
noncomputable def calc_haversine_distance (a_long a_lat b_long b_lat : ℝ) : ℝ :=
  haversine (a_lat, a_long) (b_lat, b_long)

/-- the body of GeocodedLocation.get_diag_buffer applied to a bounding box:
the haversine distance between the (min_x, min_y) and (max_x, max_y)
corners. -/
noncomputable def diag_of_box (bb : BoundingBox) : ℝ :=
  calc_haversine_distance bb.min_x bb.min_y bb.max_x bb.max_y

/-- GeocodedLocation.get_diag_buffer: approximate length (km) of the bounding
box diagonal. -/
noncomputable def GeocodedLocation.get_diag_buffer (loc : GeocodedLocation) : ℝ :=
  diag_of_box loc.bound_box

/-- diagonal buffer of the bounding box of a list of points (the derived
buffer of a Result owning exactly those points). -/
noncomputable def bboxDiagBuffer (pts : List (ℚ × ℚ)) : ℝ :=
  diag_of_box (get_bounding_box pts)

/-! ## Vetting and "best" synthesis
(src/geocode/query_funcs.py, WebGeocodingManager.vet)

location_results is a Python dict in insertion order, modelled as an
association list String x Option GeocodedLocation; a None value is the
"vetted out / absent" marker. -/
open Classical in
/-- the per-entry effect of the vetting loop: a present Result is kept when
its diagonal buffer is at most max_buffer and replaced by None otherwise;
an absent entry is untouched (the loop body is guarded by
loc_res is not None). -/
noncomputable def vetEntry (max_buffer : ℝ) :
    String × Option GeocodedLocation → String × Option GeocodedLocation
  | (k, some loc) => if loc.get_diag_buffer ≤ max_buffer then (k, some loc) else (k, none)
  | (k, none) => (k, none)

open Classical in
/-- the accumulators of the vetting loop, in iteration order: combined_pts
(points of every surviving Result, concatenated) and num_valid (survivor
count). -/
noncomputable def vetPool (max_buffer : ℝ)
    (entries : List (String × Option GeocodedLocation)) : List (ℚ × ℚ) × ℕ :=
  entries.foldl
    (fun acc e =>
      match e.2 with
      | some loc =>
          if loc.get_diag_buffer ≤ max_buffer then
            (acc.1 ++ loc.get_points_list, acc.2 + 1)
          else acc
      | none => acc)
    ([], 0)

/-- combined_pts after the vetting loop. -/
noncomputable def vetCombinedPts (max_buffer : ℝ)
    (entries : List (String × Option GeocodedLocation)) : List (ℚ × ℚ) :=
  (vetPool max_buffer entries).1

/-- num_valid after the vetting loop. -/
noncomputable def vetNumValid (max_buffer : ℝ)
    (entries : List (String × Option GeocodedLocation)) : ℕ :=
  (vetPool max_buffer entries).2

/-- the composite GeocodedLocation(points_list=combined_pts,
address_name Vetted, location_type "Composite of <num_valid> geocoded
locations", source Vetted). -/
noncomputable def vetComposite (max_buffer : ℝ)
    (entries : List (String × Option GeocodedLocation)) : GeocodedLocation :=
  ⟨vetCombinedPts max_buffer entries, "Vetted",
   "Composite of " ++ toString (vetNumValid max_buffer entries) ++ " geocoded locations",
   "Vetted"⟩

open Classical in
/-- WebGeocodingManager.vet: vet every entry of location_results in place,
then, when the combined point pool is nonempty, build the composite and
store it under key best when its own buffer passes the same threshold.
(The source assigns to the best slot of self.location_results; on a queried
manager no key best exists, so the dict assignment appends a new entry.) -/
noncomputable def vet (max_buffer : ℝ)
    (entries : List (String × Option GeocodedLocation)) :
    List (String × Option GeocodedLocation) :=
  let vetted := entries.map (vetEntry max_buffer)
  if 0 < (vetCombinedPts max_buffer entries).length then
    if (vetComposite max_buffer entries).get_diag_buffer ≤ max_buffer then
      vetted ++ [("best", some (vetComposite max_buffer entries))]
    else vetted
  else vetted

/-! ## Source Clients
(src/geocode/query_funcs.py, GMInterface / OSMInterface / GNInterface /
FuzzyGInterface)

Raw provider responses are modelled post-JSON/XML-decoding: a field that may
be missing from the wire object is an Option (None = the dict key is absent,
so reading it raises KeyError); a wholly undecodable body is the outer
none of the outer Option (json.loads itself raises). populate_locs is modelled in
Except: Except.error marks an exception escaping populate_locs
uncaught (which aborts the whole WebGeocodingManager.geocode call), and a
caught-and-skipped exception leaves no trace in the returned list. -/
/-- a JSON object with lat and lng members. -/
structure LatLng where
  lat : ℚ
  lng : ℚ
deriving DecidableEq, Repr

/-- the geometry member of a Maps-style result: optional bounds
(northeast, southwest) and optional location. -/
structure GMGeometry where
  bounds : Option (LatLng × LatLng)
  location : Option LatLng
deriving DecidableEq, Repr

/-- one entry of a Maps-style results array. -/
structure GMEntry where
  geometry : Option GMGeometry
  formatted_address : Option String
  types : Option (List String)
deriving DecidableEq, Repr

/-- a decoded Maps-style response body: the results key may be absent
(error responses carry only a status). -/
structure GMResponse where
  results : Option (List GMEntry)
deriving DecidableEq, Repr

/-- the per-entry body of GMInterface.populate_locs, wrapped in
try/except KeyError: ok none = the entry was skipped via a caught KeyError
(missing geometry, formatted_address or types); Except.error = the source
hits neither the bounds nor the location branch, leaving points_list
unassigned, and the uncaught NameError escapes. Points are built longitude
first: [lng, lat]. -/
def gmEntryLoc (e : GMEntry) : Except String (Option GeocodedLocation) :=
  match e.geometry with
  | none => .ok none
  | some g =>
    match g.bounds, g.location with
    | some (ne_corner, sw_corner), _ =>
      match e.formatted_address, e.types with
      | some addr, some tys =>
        .ok (some ⟨[(ne_corner.lng, ne_corner.lat), (sw_corner.lng, sw_corner.lat)],
                   addr, String.intercalate ";" tys, "GM"⟩)
      | _, _ => .ok none
    | none, some ll =>
      match e.formatted_address, e.types with
      | some addr, some tys =>
        .ok (some ⟨[(ll.lng, ll.lat)], addr, String.intercalate ";" tys, "GM"⟩)
      | _, _ => .ok none
    | none, none => .error "NameError: points_list is not assigned"

/-- GMInterface.populate_locs: json.loads failure raises (outer none);
a response without the results key appends nothing; otherwise the first
min(len(results), n_results) entries are parsed, skipped entries consuming
their loop slot. -/
def GM_populate (n : ℕ) (raw : Option GMResponse) : Except String (List GeocodedLocation) :=
  match raw with
  | none => .error "json.loads raised ValueError"
  | some resp =>
    match resp.results with
    | none => .ok []
    | some entries => ((entries.take n).mapM gmEntryLoc).map (List.filterMap id)

/-- one entry of an OSM-style response array. boundingbox holds the four
values [south, north, west, east] already converted to numbers (the source
maps float over the raw strings). address_country_code is
the country_code member of the address member of the entry when both
exist. -/
structure OSMEntry where
  boundingbox : Option (List ℚ)
  display_name : Option String
  osm_class : Option String
  address_country_code : Option String
deriving DecidableEq, Repr

/-- OSMInterface.in_correct_country: no ISO passed means no filter; a
present country code is compared lowercased against the lowercased ISO (of
whatever length); a missing country code falls back to keep_unsure. -/
def in_correct_country (iso : Option String) (keep_unsure : Bool) (e : OSMEntry) : Bool :=
  match iso with
  | none => true
  | some iso' =>
    match e.address_country_code with
    | some cc => pyLower cc == pyLower iso'
    | none => keep_unsure

/-- the per-entry body of the OSMInterface.populate_locs loop. There is no
try/except here: a missing boundingbox / display_name / class key raises
KeyError, and fewer than four boundingbox values raises IndexError, aborting
the whole parse. Note the points are assembled as
[[bb[0], bb[2]], [bb[1], bb[3]]] = [(south, west), (north, east)]:
latitude first. -/
def osmEntryLoc (e : OSMEntry) : Except String GeocodedLocation :=
  match e.boundingbox with
  | none => .error "KeyError: boundingbox"
  | some bb =>
    match bb[0]?, bb[1]?, bb[2]?, bb[3]? with
    | some bs, some bn, some bw, some be =>
      match e.display_name with
      | none => .error "KeyError: display_name"
      | some dn =>
        match e.osm_class with
        | none => .error "KeyError: class"
        | some cls => .ok ⟨[(bs, bw), (bn, be)], dn, cls, "OSM"⟩
    | _, _, _, _ => .error "IndexError: boundingbox"

/-- OSMInterface.populate_locs: json.loads failure raises; the array is
filtered by in_correct_country (keep_unsure defaulting to True), then the
first min(len, n_results) survivors are parsed in order. -/
def OSM_populate (iso : Option String) (n : ℕ) (raw : Option (List OSMEntry)) :
    Except String (List GeocodedLocation) :=
  match raw with
  | none => .error "json.loads raised ValueError"
  | some entries => ((entries.filter (in_correct_country iso true)).take n).mapM osmEntryLoc

/-- one entry of a Gazetteer-style geonames array. -/
structure GNEntry where
  lat : Option ℚ
  lng : Option ℚ
  name : Option String
  fclName : Option String
deriving DecidableEq, Repr

/-- a decoded Gazetteer-style response body: the geonames key may be absent
(error responses). -/
structure GNResponse where
  geonames : Option (List GNEntry)
deriving DecidableEq, Repr

/-- the per-entry body of the GNInterface.populate_locs loop: any
missing member raises KeyError, which is NOT a ValueError and so escapes
the surrounding try/except ValueError. Points are [lng, lat]. -/
def gnEntryLoc (e : GNEntry) : Except String GeocodedLocation :=
  match e.lng, e.lat, e.name, e.fclName with
  | some lg, some lt, some nm, some fc => .ok ⟨[(lg, lt)], nm, fc, "GN"⟩
  | _, _, _, _ => .error "KeyError"

/-- GNInterface.populate_locs: the whole body sits in try/except ValueError,
so an undecodable body (json.loads raises ValueError) is swallowed and
yields []; a decoded body without the geonames key raises KeyError, which
escapes. -/
def GN_populate (n : ℕ) (raw : Option GNResponse) : Except String (List GeocodedLocation) :=
  match raw with
  | none => .ok []
  | some resp =>
    match resp.geonames with
    | none => .error "KeyError: geonames"
    | some entries => (entries.take n).mapM gnEntryLoc

/-- one result element of a Fuzzy-gazetteer XML response, with the four
members populate_locs reads (the source keeps ddlong/ddlat as the raw XML
strings; we model their numeric content). -/
structure FGEntry where
  ddlong : ℚ
  ddlat : ℚ
  fullname : String
  dsg : String
deriving DecidableEq, Repr

/-- the results.result node as produced by xmltodict: a single object when
the response holds exactly one match, a list otherwise. -/
inductive FGResultsNode where
  | one (e : FGEntry)
  | many (es : List FGEntry)
deriving DecidableEq, Repr

/-- FuzzyGInterface.populate_locs. When results is None nothing is appended.
When results.result is a list, the first min(len, n_results) entries are
parsed (points are [ddlong, ddlat]: longitude first). When results.result is
a single object, len() counts its keys (at least the four members above, so
>= 1) and response_list[i] indexes the dict with the integer i, raising
KeyError on the first iteration; with n_results = 0 the loop body never
runs. -/
def FG_populate (n : ℕ) (results : Option FGResultsNode) :
    Except String (List GeocodedLocation) :=
  match results with
  | none => .ok []
  | some (.many es) =>
      .ok ((es.take n).map (fun e => ⟨[(e.ddlong, e.ddlat)], e.fullname, e.dsg, "FuzzyG"⟩))
  | some (.one _) => if n = 0 then .ok [] else .error "KeyError: 0"

/-! ### Country-filter parameters of build_query
(GMInterface.build_query, GNInterface.build_query, FuzzyGInterface.build_query) -/
/-- the components parameter of GMInterface.build_query: added only when an
ISO was passed and len(str(iso)) == 2. -/
def GM_build_components (iso : Option String) : Option String :=
  match iso with
  | some s => if s.length = 2 then some ("country:" ++ s) else none
  | none => none

/-- the country parameter of GNInterface.build_query: same two-character
guard. -/
def GN_build_country (iso : Option String) : Option String :=
  match iso with
  | some s => if s.length = 2 then some s else none
  | none => none

/-- the cc parameter of FuzzyGInterface.build_query: same two-character
guard. -/
def FG_build_cc (iso : Option String) : Option String :=
  match iso with
  | some s => if s.length = 2 then some s else none
  | none => none

/-! ## Batch pipeline column reordering
(src/geocode/batch_geocode.py, rearrange_fields;
src/geocode/utilities.py, get_geocoding_suffixes) -/
/-- get_geocoding_suffixes: the attribute suffixes kept per geocoding
group, in emission order. -/
def get_geocoding_suffixes : List String := ["name", "type", "lat", "long", "buffer"]

/-- sorted(list(set(prefix of each column)), key=lambda s: s.lower()).
Python sorted is a stable sort by the lowercased key; insertionSort over
lowerLe realises the same sortedness (set iteration order, hence tie order
among distinct prefixes with equal lowercasing, is arbitrary in Python). -/
def sortedPrefixList (cols : List String) : List String :=
  List.insertionSort lowerLe (pyUnique (cols.map colPfx))

/-- the prefixes variable of rearrange_fields after the
best-forcing step (when best is not among the prefixes it is prepended). -/
def rearrangePrefixList (cols : List String) : List String :=
  let prefixes := sortedPrefixList cols
  if "best" ∈ prefixes then prefixes else "best" :: prefixes

/-- rearrange_fields as a function on column labels: the reindex returns a
frame whose columns are exactly the prefix-underscore-suffix combinations,
prefixes outer and suffixes inner, in that order (labels already present keep their values, freshly
created ones are filled with missing values). -/
def rearrange_fields (cols : List String) : List String :=
  (rearrangePrefixList cols).flatMap
    (fun p => get_geocoding_suffixes.map (fun s => p ++ "_" ++ s))

/-- the column-prefix shapes a geocoded dataframe produced by the batch
pipeline can carry: the synthetic best group, or a provider tag (GM, OSM,
GN, FG) followed by a 1-based rank. -/
def IsPipelinePfx (p : String) : Prop :=
  p = "best" ∨ ∃ t ∈ (["GM", "OSM", "GN", "FG"] : List String), ∃ k : ℕ, p = t ++ toString (k + 1)

/-! ## Pre-geocoding configuration checks of the batch entry point
(src/geocode/batch_geocode.py geocode_from_flask;
src/geocode/utilities.py check_keys_for_tools / validate_iso2) -/
/-- the canonical two-letter country-code set of validate_iso2, transcribed
verbatim. -/
def valid_iso2_set : List String :=
  ["AF", "AX", "AL", "DZ", "AS", "AD", "AO", "AI", "AQ", "AG", "AR", "AM",
   "AW", "AU", "AT", "AZ", "BH", "BS", "BD", "BB", "BY", "BE", "BZ", "BJ",
   "BM", "BT", "BO", "BQ", "BA", "BW", "BV", "BR", "IO", "BN", "BG", "BF",
   "BI", "KH", "CM", "CA", "CV", "KY", "CF", "TD", "CL", "CN", "CX", "CC",
   "CO", "KM", "CG", "CD", "CK", "CR", "CI", "HR", "CU", "CW", "CY", "CZ",
   "DK", "DJ", "DM", "DO", "EC", "EG", "SV", "GQ", "ER", "EE", "ET", "FK",
   "FO", "FJ", "FI", "FR", "GF", "PF", "TF", "GA", "GM", "GE", "DE", "GH",
   "GI", "GR", "GL", "GD", "GP", "GU", "GT", "GG", "GN", "GW", "GY", "HT",
   "HM", "VA", "HN", "HK", "HU", "IS", "IN", "ID", "IR", "IQ", "IE", "IM",
   "IL", "IT", "JM", "JP", "JE", "JO", "KZ", "KE", "KI", "KP", "KR", "KW",
   "KG", "LA", "LV", "LB", "LS", "LR", "LY", "LI", "LT", "LU", "MO", "MK",
   "MG", "MW", "MY", "MV", "ML", "MT", "MH", "MQ", "MR", "MU", "YT", "MX",
   "FM", "MD", "MC", "MN", "ME", "MS", "MA", "MZ", "MM", "NA", "NR", "NP",
   "NL", "NC", "NZ", "NI", "NE", "NG", "NU", "NF", "MP", "NO", "OM", "PK",
   "PW", "PS", "PA", "PG", "PY", "PE", "PH", "PN", "PL", "PT", "PR", "QA",
   "RE", "RO", "RU", "RW", "BL", "SH", "KN", "LC", "MF", "PM", "VC", "WS",
   "SM", "ST", "SA", "SN", "RS", "SC", "SL", "SG", "SX", "SK", "SI", "SB",
   "SO", "ZA", "GS", "SS", "ES", "LK", "SD", "SR", "SJ", "SZ", "SE", "CH",
   "SY", "TW", "TJ", "TZ", "TH", "TL", "TG", "TK", "TO", "TT", "TN", "TR",
   "TM", "TC", "TV", "UG", "UA", "AE", "GB", "US", "UM", "UY", "UZ", "VU",
   "VE", "VN", "VG", "VI", "WF", "EH", "YE", "ZM", "ZW"]

/-- validate_iso2: uppercase the unique values of the ISO column; if every
one lies in the canonical set return None, otherwise return the offending
values (joined with ", " when more than one, the bare value when exactly
one). The all(...) test of the source is equivalent to the bad list being
empty. -/
def validate_iso2 (iso2_list : List String) : Option String :=
  let iso2_set := (pyUnique iso2_list).map pyUpper
  let bad_iso2s := iso2_set.filter (fun x => decide (x ∉ valid_iso2_set))
  if bad_iso2s.isEmpty then none
  else if bad_iso2s.length > 1 then some (String.intercalate ", " bad_iso2s)
  else some (bad_iso2s.headD "")

/-- check_keys_for_tools: an enabled Google Maps needs a nonempty key, an
enabled GeoNames a nonempty username; the first failing check wins, and
falling through returns None. usetools is the list of enabled tool tags
(assembled in app/routes.py). -/
def check_keys_for_tools (keygm geonames : String) (usetools : List String) : Option String :=
  if "GM" ∈ usetools ∧ keygm = "" then
    some "Google Maps has been specified as a service, a Google Maps key must be provided."
  else if "GN" ∈ usetools ∧ geonames = "" then
    some "Geonames has been specified as a service, a Geonames username must be provided."
  else none

/-- the input table as geocode_from_flask sees it after read_and_prep_input
(file decoding being external tabular I/O, out of the modelled core): its
column names and its rows as column-to-value mappings. -/
structure InTable where
  columns : List String
  rows : List (String → String)

/-- Modelled from the spec: validate_columns is imported and called by
geocode_from_flask but its definition is absent from
src/geocode/utilities.py. Spec (External interfaces): the Batch Pipeline
requires the caller-specified address column and ISO-2 column to exist, and
fails fast if they do not; geocode_from_flask turns a non-None return into
the Invalid column error. -/
def validate_columns (df : InTable) (iso address : String) : Option String :=
  if iso ∈ df.columns then
    if address ∈ df.columns then none else some address
  else some iso

/-- outcome of geocode_from_flask: the source returns
(None, category, message) on failure and (output, None, None) on success. -/
inductive GFResult (α : Type) where
  | err (category : String) (message : String)
  | ok (out : List α)

/-- geocode_from_flask, from the credential check up to the per-row
geocoding. geocodeRow abstracts query_funcs.geocode_row (the per-row
WebGeocodingManager run, the only network-dispatching step); every error
branch is produced before it is ever applied, so an error outcome is the
same for every geocodeRow. -/
def geocode_from_flask {α : Type} (geocodeRow : (String → String) → α)
    (keygm geonames : String) (usetools : List String) (iso address : String)
    (df : InTable) : GFResult α :=
  match check_keys_for_tools keygm geonames usetools with
  | some e => .err "Key Error: " e
  | none =>
    match validate_columns df iso address with
    | some c => .err "Invalid column: "
        (c ++ ". If you are sure the columns names are correct, the encoding may be wrong.")
    | none =>
      match validate_iso2 (df.rows.map (fun r => r iso)) with
      | some bad => .err "The following iso2s provided were invalid: " bad
      | none => .ok (df.rows.map geocodeRow)

theorem mem_pyUnique_fold (l : List String) (acc : List String) (x : String) :
    x ∈ l.foldl (fun acc x => if x ∈ acc then acc else acc ++ [x]) acc ↔ x ∈ acc ∨ x ∈ l := by
  induction l generalizing acc with
  | nil => simp
  | cons a l ih =>
    simp only [List.foldl_cons, ih, List.mem_cons]
    by_cases ha : a ∈ acc
    · simp [ha]
      constructor
      · tauto
      · rintro (h | h | h) <;> try tauto
        subst h; tauto
    · simp [ha, List.mem_append]
      tauto

theorem mem_pyUnique (l : List String) (x : String) : x ∈ pyUnique l ↔ x ∈ l := by
  unfold pyUnique
  rw [mem_pyUnique_fold]
  simp

/-! ### Basic geometry lemmas -/
theorem haversine_self (p : ℝ × ℝ) : haversine p p = 0 := by
  unfold haversine
  simp [sub_self, Real.sin_zero, Real.sqrt_zero, Real.arcsin_zero]

theorem haversine_comm (pa pb : ℝ × ℝ) : haversine pa pb = haversine pb pa := by
  unfold haversine
  have hsin : ∀ x y : ℝ, Real.sin ((x - y) / 2) ^ 2 = Real.sin ((y - x) / 2) ^ 2 := by
    intro x y
    rw [show (x - y) / 2 = -((y - x) / 2) by ring, Real.sin_neg, neg_sq]
  rw [hsin (toRadians pb.1) (toRadians pa.1), hsin (toRadians pb.2) (toRadians pa.2),
      mul_comm (Real.cos (toRadians pa.1)) (Real.cos (toRadians pb.1))]

theorem diag_of_box_self_zero (bb : BoundingBox) (hx : bb.min_x = bb.max_x)
    (hy : bb.min_y = bb.max_y) : diag_of_box bb = 0 := by
  unfold diag_of_box calc_haversine_distance
  rw [hx, hy]
  exact haversine_self _

theorem bboxDiagBuffer_singleton (p : ℚ × ℚ) : bboxDiagBuffer [p] = 0 := by
  apply diag_of_box_self_zero <;> simp [get_bounding_box, listMin, listMax]

theorem get_diag_buffer_singleton (p : ℚ × ℚ) (nm ty src : String) :
    GeocodedLocation.get_diag_buffer ⟨[p], nm, ty, src⟩ = 0 :=
  bboxDiagBuffer_singleton p

theorem foldl_min_le_init (xs : List ℚ) (x : ℚ) : xs.foldl min x ≤ x := by
  induction xs generalizing x with
  | nil => exact le_refl x
  | cons y ys ih =>
    simp only [List.foldl_cons]
    exact le_trans (ih (min x y)) (min_le_left x y)

theorem foldl_min_le_mem (xs : List ℚ) (x a : ℚ) (ha : a ∈ xs) : xs.foldl min x ≤ a := by
  induction xs generalizing x with
  | nil => simp at ha
  | cons y ys ih =>
    simp only [List.foldl_cons]
    rcases List.mem_cons.mp ha with rfl | ha'
    · exact le_trans (foldl_min_le_init ys (min x a)) (min_le_right x a)
    · exact ih (min x y) ha'

theorem foldl_min_mem (xs : List ℚ) (x : ℚ) : xs.foldl min x = x ∨ xs.foldl min x ∈ xs := by
  induction xs generalizing x with
  | nil => exact Or.inl rfl
  | cons y ys ih =>
    simp only [List.foldl_cons]
    rcases ih (min x y) with h | h
    · rcases min_choice x y with hc | hc
      · exact Or.inl (h.trans hc)
      · exact Or.inr (by rw [h.trans hc]; simp)
    · exact Or.inr (List.mem_cons_of_mem _ h)

theorem foldl_max_init_le (xs : List ℚ) (x : ℚ) : x ≤ xs.foldl max x := by
  induction xs generalizing x with
  | nil => exact le_refl x
  | cons y ys ih =>
    simp only [List.foldl_cons]
    exact le_trans (le_max_left x y) (ih (max x y))

theorem foldl_max_mem_le (xs : List ℚ) (x a : ℚ) (ha : a ∈ xs) : a ≤ xs.foldl max x := by
  induction xs generalizing x with
  | nil => simp at ha
  | cons y ys ih =>
    simp only [List.foldl_cons]
    rcases List.mem_cons.mp ha with rfl | ha'
    · exact le_trans (le_max_right x a) (foldl_max_init_le ys (max x a))
    · exact ih (max x y) ha'

theorem foldl_max_mem (xs : List ℚ) (x : ℚ) : xs.foldl max x = x ∨ xs.foldl max x ∈ xs := by
  induction xs generalizing x with
  | nil => exact Or.inl rfl
  | cons y ys ih =>
    simp only [List.foldl_cons]
    rcases ih (max x y) with h | h
    · rcases max_choice x y with hc | hc
      · exact Or.inl (h.trans hc)
      · exact Or.inr (by rw [h.trans hc]; simp)
    · exact Or.inr (List.mem_cons_of_mem _ h)

theorem listMin_mem (l : List ℚ) (hl : l ≠ []) : listMin l ∈ l := by
  match l with
  | x :: xs =>
    show xs.foldl min x ∈ x :: xs
    rcases foldl_min_mem xs x with h | h
    · rw [h]; simp
    · exact List.mem_cons_of_mem _ h

theorem listMin_le (l : List ℚ) (a : ℚ) (ha : a ∈ l) : listMin l ≤ a := by
  match l with
  | x :: xs =>
    show xs.foldl min x ≤ a
    rcases List.mem_cons.mp ha with rfl | ha'
    · exact foldl_min_le_init xs a
    · exact foldl_min_le_mem xs x a ha'

theorem listMax_mem (l : List ℚ) (hl : l ≠ []) : listMax l ∈ l := by
  match l with
  | x :: xs =>
    show xs.foldl max x ∈ x :: xs
    rcases foldl_max_mem xs x with h | h
    · rw [h]; simp
    · exact List.mem_cons_of_mem _ h

theorem le_listMax (l : List ℚ) (a : ℚ) (ha : a ∈ l) : a ≤ listMax l := by
  match l with
  | x :: xs =>
    show a ≤ xs.foldl max x
    rcases List.mem_cons.mp ha with rfl | ha'
    · exact foldl_max_init_le xs a
    · exact foldl_max_mem_le xs x a ha'

theorem listMin_perm {l1 l2 : List ℚ} (h : l1.Perm l2) (hne : l1 ≠ []) :
    listMin l1 = listMin l2 := by
  have hne2 : l2 ≠ [] := by
    intro h2; exact hne (List.Perm.eq_nil (h2 ▸ h))
  apply le_antisymm
  · exact listMin_le l1 _ (h.mem_iff.mpr (listMin_mem l2 hne2))
  · exact listMin_le l2 _ (h.mem_iff.mp (listMin_mem l1 hne))

theorem listMax_perm {l1 l2 : List ℚ} (h : l1.Perm l2) (hne : l1 ≠ []) :
    listMax l1 = listMax l2 := by
  have hne2 : l2 ≠ [] := by
    intro h2; exact hne (List.Perm.eq_nil (h2 ▸ h))
  apply le_antisymm
  · exact le_listMax l2 _ (h.mem_iff.mp (listMax_mem l1 hne))
  · exact le_listMax l1 _ (h.mem_iff.mpr (listMax_mem l2 hne2))

theorem get_bounding_box_perm {l1 l2 : List (ℚ × ℚ)} (h : l1.Perm l2) (hne : l1 ≠ []) :
    get_bounding_box l1 = get_bounding_box l2 := by
  have hne' : l1.map Prod.fst ≠ [] := by simpa using hne
  have hne'' : l1.map Prod.snd ≠ [] := by simpa using hne
  unfold get_bounding_box
  rw [listMin_perm (h.map Prod.fst) hne', listMin_perm (h.map Prod.snd) hne'',
      listMax_perm (h.map Prod.fst) hne', listMax_perm (h.map Prod.snd) hne'']

/-! ### Vetting lemmas -/
theorem vetEntry_fst (max_buffer : ℝ) (e : String × Option GeocodedLocation) :
    (vetEntry max_buffer e).1 = e.1 := by
  rcases e with ⟨k, _ | loc⟩
  · rfl
  · unfold vetEntry
    by_cases h : loc.get_diag_buffer ≤ max_buffer <;> simp [h]

theorem vet_keys_sub (max_buffer : ℝ) (entries : List (String × Option GeocodedLocation)) :
    (vet max_buffer entries).map Prod.fst = entries.map Prod.fst ∨
      (vet max_buffer entries).map Prod.fst = entries.map Prod.fst ++ ["best"] := by
  have hmapped : (entries.map (vetEntry max_buffer)).map Prod.fst = entries.map Prod.fst := by
    rw [List.map_map]
    apply List.map_congr_left
    intro e _
    exact vetEntry_fst max_buffer e
  unfold vet
  by_cases h1 : 0 < (vetCombinedPts max_buffer entries).length
  · by_cases h2 : (vetComposite max_buffer entries).get_diag_buffer ≤ max_buffer
    · right; simp only [h1, h2, if_pos]
      rw [List.map_append, hmapped]
      rfl
    · left; simp only [h1, if_pos, h2, if_neg, not_false_iff]
      simpa using hmapped
  · left; simp only [h1, if_neg, not_false_iff]
    simpa using hmapped

theorem vetPool_foldl_snd_mono (max_buffer : ℝ)
    (l : List (String × Option GeocodedLocation)) (acc : List (ℚ × ℚ) × ℕ) :
    acc.2 ≤ (l.foldl
      (fun acc e =>
        match e.2 with
        | some loc =>
            if loc.get_diag_buffer ≤ max_buffer then
              (acc.1 ++ loc.get_points_list, acc.2 + 1)
            else acc
        | none => acc)
      acc).2 := by
  induction l generalizing acc with
  | nil => exact le_refl _
  | cons e l ih =>
    simp only [List.foldl_cons]
    rcases e with ⟨k, _ | loc⟩
    · exact ih acc
    · by_cases h : loc.get_diag_buffer ≤ max_buffer
      · simp only [h, if_pos]
        exact le_trans (Nat.le_succ acc.2) (ih (acc.1 ++ loc.get_points_list, acc.2 + 1))
      · simp only [h, if_neg, not_false_iff]
        exact ih acc

theorem vetPool_foldl_fst_of_snd_eq (max_buffer : ℝ)
    (l : List (String × Option GeocodedLocation)) (acc : List (ℚ × ℚ) × ℕ)
    (h : (l.foldl
      (fun acc e =>
        match e.2 with
        | some loc =>
            if loc.get_diag_buffer ≤ max_buffer then
              (acc.1 ++ loc.get_points_list, acc.2 + 1)
            else acc
        | none => acc)
      acc).2 = acc.2) :
    (l.foldl
      (fun acc e =>
        match e.2 with
        | some loc =>
            if loc.get_diag_buffer ≤ max_buffer then
              (acc.1 ++ loc.get_points_list, acc.2 + 1)
            else acc
        | none => acc)
      acc).1 = acc.1 := by
  induction l generalizing acc with
  | nil => rfl
  | cons e l ih =>
    simp only [List.foldl_cons] at h ⊢
    rcases e with ⟨k, _ | loc⟩
    · exact ih acc h
    · by_cases hb : loc.get_diag_buffer ≤ max_buffer
      · simp only [hb, if_pos] at h
        exfalso
        have := vetPool_foldl_snd_mono max_buffer l (acc.1 ++ loc.get_points_list, acc.2 + 1)
        omega
      · simp only [hb, if_neg, not_false_iff] at h ⊢
        exact ih acc h

theorem vetPool_foldl_len (max_buffer : ℝ)
    (l : List (String × Option GeocodedLocation)) (acc : List (ℚ × ℚ) × ℕ)
    (hpts : ∀ kv ∈ l, ∀ loc, kv.2 = some loc → loc.points_list ≠ []) :
    (l.foldl
      (fun acc e =>
        match e.2 with
        | some loc =>
            if loc.get_diag_buffer ≤ max_buffer then
              (acc.1 ++ loc.get_points_list, acc.2 + 1)
            else acc
        | none => acc)
      acc).1.length + acc.2 ≥ acc.1.length + (l.foldl
      (fun acc e =>
        match e.2 with
        | some loc =>
            if loc.get_diag_buffer ≤ max_buffer then
              (acc.1 ++ loc.get_points_list, acc.2 + 1)
            else acc
        | none => acc)
      acc).2 := by
  induction l generalizing acc with
  | nil => exact le_refl _
  | cons e l ih =>
    simp only [List.foldl_cons]
    have hpts' : ∀ kv ∈ l, ∀ loc, kv.2 = some loc → loc.points_list ≠ [] :=
      fun kv hkv => hpts kv (List.mem_cons_of_mem _ hkv)
    rcases e with ⟨k, _ | loc⟩
    · exact ih acc hpts'
    · by_cases hb : loc.get_diag_buffer ≤ max_buffer
      · simp only [hb, if_pos]
        have hlen : 1 ≤ loc.get_points_list.length := by
          have := hpts (k, some loc) (List.mem_cons_self _ _) loc rfl
          rcases hn : loc.points_list with _ | ⟨p, ps⟩
          · exact absurd hn this
          · simp [GeocodedLocation.get_points_list, hn]
        have := ih (acc.1 ++ loc.get_points_list, acc.2 + 1) hpts'
        simp only [List.length_append] at this ⊢
        omega
      · simp only [hb, if_neg, not_false_iff]
        exact ih acc hpts'

theorem vetNumValid_pos_iff (max_buffer : ℝ)
    (entries : List (String × Option GeocodedLocation))
    (hpts : ∀ kv ∈ entries, ∀ loc, kv.2 = some loc → loc.points_list ≠ []) :
    0 < vetNumValid max_buffer entries ↔ vetCombinedPts max_buffer entries ≠ [] := by
  constructor
  · intro h
    have := vetPool_foldl_len max_buffer entries ([], 0) hpts
    unfold vetNumValid vetPool at h
    unfold vetCombinedPts vetPool
    simp only [List.length_nil] at this
    intro hkill
    rw [hkill] at this
    simp at this
    omega
  · intro h
    by_contra hz
    push_neg at hz
    interval_cases hz2 : vetNumValid max_buffer entries
    have : vetCombinedPts max_buffer entries = [] := by
      unfold vetCombinedPts vetPool
      apply vetPool_foldl_fst_of_snd_eq
      unfold vetNumValid vetPool at hz2
      exact hz2
    exact h this

theorem vetPool_foldl_fst_mono (max_buffer : ℝ)
    (l : List (String × Option GeocodedLocation)) (acc : List (ℚ × ℚ) × ℕ)
    (p : ℚ × ℚ) (hp : p ∈ acc.1) :
    p ∈ (l.foldl
      (fun acc e =>
        match e.2 with
        | some loc =>
            if loc.get_diag_buffer ≤ max_buffer then
              (acc.1 ++ loc.get_points_list, acc.2 + 1)
            else acc
        | none => acc)
      acc).1 := by
  induction l generalizing acc with
  | nil => exact hp
  | cons e l ih =>
    simp only [List.foldl_cons]
    rcases e with ⟨k, _ | loc⟩
    · exact ih acc hp
    · by_cases h : loc.get_diag_buffer ≤ max_buffer
      · simp only [h, if_pos]
        exact ih _ (List.mem_append_left _ hp)
      · simp only [h, if_neg, not_false_iff]
        exact ih acc hp

theorem vetPool_foldl_mem_points (max_buffer : ℝ)
    (l : List (String × Option GeocodedLocation)) (acc : List (ℚ × ℚ) × ℕ)
    (k : String) (loc : GeocodedLocation) (hmem : (k, some loc) ∈ l)
    (hbuf : loc.get_diag_buffer ≤ max_buffer) (p : ℚ × ℚ) (hp : p ∈ loc.points_list) :
    p ∈ (l.foldl
      (fun acc e =>
        match e.2 with
        | some loc =>
            if loc.get_diag_buffer ≤ max_buffer then
              (acc.1 ++ loc.get_points_list, acc.2 + 1)
            else acc
        | none => acc)
      acc).1 := by
  induction l generalizing acc with
  | nil => simp at hmem
  | cons e l ih =>
    simp only [List.foldl_cons]
    rcases List.mem_cons.mp hmem with rfl | hmem'
    · simp only [hbuf, if_pos]
      exact vetPool_foldl_fst_mono max_buffer l _ p
        (List.mem_append_right _ hp)
    · rcases e with ⟨k', _ | loc'⟩
      · exact ih acc hmem'
      · by_cases h : loc'.get_diag_buffer ≤ max_buffer
        · simp only [h, if_pos]
          exact ih _ hmem'
        · simp only [h, if_neg, not_false_iff]
          exact ih acc hmem'

theorem mem_vet_of_mem_vetted (max_buffer : ℝ)
    (entries : List (String × Option GeocodedLocation))
    (x : String × Option GeocodedLocation)
    (hx : x ∈ entries.map (vetEntry max_buffer)) : x ∈ vet max_buffer entries := by
  unfold vet
  by_cases h1 : 0 < (vetCombinedPts max_buffer entries).length
  · by_cases h2 : (vetComposite max_buffer entries).get_diag_buffer ≤ max_buffer
    · simp only [h1, if_pos, h2]
      exact List.mem_append_left _ hx
    · simp only [h1, if_pos, h2, if_neg, not_false_iff]
      exact hx
  · simp only [h1, if_neg, not_false_iff]
    exact hx

/-! ## Claim theorems about vetting -/
/-- C1: after WebGeocodingManager.vet runs on a queried manager (so no key
best is present yet, and every stored Result owns at least one point, as
every client-constructed Result does), the key best appears in
location_results exactly when at least one provider Result survived vetting
(equivalently, the combined point pool is nonempty) and the composite
GeocodedLocation built from the full pool of surviving points itself has a
diagonal buffer no greater than max_buffer; in particular, with zero
survivors no best key is ever produced. -/
theorem vet_best_key_iff (max_buffer : ℝ)
    (entries : List (String × Option GeocodedLocation))
    (hbest : "best" ∉ entries.map Prod.fst)
    (hpts : ∀ kv ∈ entries, ∀ loc, kv.2 = some loc → loc.points_list ≠ []) :
    ("best" ∈ (vet max_buffer entries).map Prod.fst ↔
      (0 < vetNumValid max_buffer entries ∧
        (vetComposite max_buffer entries).get_diag_buffer ≤ max_buffer)) ∧
    (vetNumValid max_buffer entries = 0 →
      "best" ∉ (vet max_buffer entries).map Prod.fst) := by
  have hmapped : (entries.map (vetEntry max_buffer)).map Prod.fst = entries.map Prod.fst := by
    rw [List.map_map]
    apply List.map_congr_left
    intro e _
    exact vetEntry_fst max_buffer e
  have hnv : 0 < vetNumValid max_buffer entries ↔ vetCombinedPts max_buffer entries ≠ [] :=
    vetNumValid_pos_iff max_buffer entries hpts
  have hlen : 0 < (vetCombinedPts max_buffer entries).length ↔
      vetCombinedPts max_buffer entries ≠ [] := List.length_pos
  have hveq : vet max_buffer entries =
      if 0 < (vetCombinedPts max_buffer entries).length then
        if (vetComposite max_buffer entries).get_diag_buffer ≤ max_buffer then
          entries.map (vetEntry max_buffer) ++
            [("best", some (vetComposite max_buffer entries))]
        else entries.map (vetEntry max_buffer)
      else entries.map (vetEntry max_buffer) := rfl
  constructor
  · by_cases h1 : 0 < (vetCombinedPts max_buffer entries).length
    · by_cases h2 : (vetComposite max_buffer entries).get_diag_buffer ≤ max_buffer
      · rw [hveq, if_pos h1, if_pos h2]
        constructor
        · intro _
          exact ⟨hnv.mpr (hlen.mp h1), h2⟩
        · intro _
          rw [List.map_append, hmapped]
          simp
      · rw [hveq, if_pos h1, if_neg h2, hmapped]
        constructor
        · intro hc; exact absurd hc hbest
        · rintro ⟨-, hc⟩; exact absurd hc h2
    · rw [hveq, if_neg h1, hmapped]
      constructor
      · intro hc; exact absurd hc hbest
      · rintro ⟨hpos, -⟩
        exact absurd (hlen.mpr (hnv.mp hpos)) h1
  · intro hz hc
    have h1 : ¬ 0 < (vetCombinedPts max_buffer entries).length := by
      intro hpos
      have := hnv.mpr (hlen.mp hpos)
      omega
    rw [hveq, if_neg h1, hmapped] at hc
    exact hbest hc

/-- C1 witness: a single surviving zero-buffer Result at max_buffer = 0
produces the best key. -/
theorem vet_best_key_iff_witness :
    "best" ∈ (vet 0 [("GN1", some ⟨[(1, 2)], "a", "t", "GN"⟩)]).map Prod.fst := by
  have hb : GeocodedLocation.get_diag_buffer ⟨[(1, 2)], "a", "t", "GN"⟩ = 0 :=
    get_diag_buffer_singleton (1, 2) "a" "t" "GN"
  have hle : GeocodedLocation.get_diag_buffer ⟨[(1, 2)], "a", "t", "GN"⟩ ≤ 0 := le_of_eq hb
  have hpool : vetCombinedPts 0 [("GN1", some ⟨[(1, 2)], "a", "t", "GN"⟩)] = [(1, 2)] := by
    unfold vetCombinedPts vetPool
    simp only [List.foldl_cons, List.foldl_nil]
    rw [if_pos hle]
    rfl
  have hnum : vetNumValid 0 [("GN1", some ⟨[(1, 2)], "a", "t", "GN"⟩)] = 1 := by
    unfold vetNumValid vetPool
    simp only [List.foldl_cons, List.foldl_nil]
    rw [if_pos hle]
  refine (vet_best_key_iff 0 [("GN1", some ⟨[(1, 2)], "a", "t", "GN"⟩)]
      (by decide)
      (fun kv hkv loc hloc => ?_)).1.mpr ⟨by rw [hnum]; exact Nat.one_pos, ?_⟩
  · rcases List.mem_singleton.mp hkv with rfl
    simp only [Option.some_inj] at hloc
    rw [← hloc]
    simp
  · show (vetComposite 0 _).get_diag_buffer ≤ 0
    unfold vetComposite
    rw [hpool, get_diag_buffer_singleton]

/-- C3: vetting uses an inclusive boundary: a present Result whose diagonal
buffer equals max_buffer exactly is retained (its entry survives unchanged
into the vetted map and all its points reach the survivor pool), while a
Result whose buffer strictly exceeds max_buffer has its entry replaced by
the absent marker None. -/
theorem vet_inclusive_boundary (max_buffer : ℝ)
    (entries : List (String × Option GeocodedLocation))
    (k : String) (loc : GeocodedLocation) (hmem : (k, some loc) ∈ entries) :
    (loc.get_diag_buffer = max_buffer →
      vetEntry max_buffer (k, some loc) = (k, some loc) ∧
      (k, some loc) ∈ vet max_buffer entries ∧
      ∀ p ∈ loc.points_list, p ∈ vetCombinedPts max_buffer entries) ∧
    (max_buffer < loc.get_diag_buffer →
      vetEntry max_buffer (k, some loc) = (k, none) ∧
      (k, none) ∈ vet max_buffer entries) := by
  constructor
  · intro heq
    have hle : loc.get_diag_buffer ≤ max_buffer := le_of_eq heq
    have he : vetEntry max_buffer (k, some loc) = (k, some loc) := by
      unfold vetEntry
      simp [hle]
    refine ⟨he, ?_, ?_⟩
    · exact mem_vet_of_mem_vetted max_buffer entries _
        (he ▸ List.mem_map_of_mem (vetEntry max_buffer) hmem)
    · intro p hp
      exact vetPool_foldl_mem_points max_buffer entries ([], 0) k loc hmem hle p hp
  · intro hgt
    have hnle : ¬ loc.get_diag_buffer ≤ max_buffer := not_le_of_lt hgt
    have he : vetEntry max_buffer (k, some loc) = (k, none) := by
      unfold vetEntry
      simp [hnle]
    exact ⟨he, mem_vet_of_mem_vetted max_buffer entries _
      (he ▸ List.mem_map_of_mem (vetEntry max_buffer) hmem)⟩

/-- C3 witness: a zero-buffer Result at max_buffer = 0 sits exactly on the
boundary and is retained; the same Result at max_buffer = -1 exceeds the
threshold and is replaced by None. -/
theorem vet_inclusive_boundary_witness :
    ("GN1", some (⟨[(1, 2)], "a", "t", "GN"⟩ : GeocodedLocation)) ∈
        vet 0 [("GN1", some ⟨[(1, 2)], "a", "t", "GN"⟩)] ∧
    ("GN1", (none : Option GeocodedLocation)) ∈
        vet (-1) [("GN1", some ⟨[(1, 2)], "a", "t", "GN"⟩)] := by
  have hb : GeocodedLocation.get_diag_buffer ⟨[(1, 2)], "a", "t", "GN"⟩ = 0 :=
    get_diag_buffer_singleton (1, 2) "a" "t" "GN"
  constructor
  · exact ((vet_inclusive_boundary 0 [("GN1", some ⟨[(1, 2)], "a", "t", "GN"⟩)]
      "GN1" ⟨[(1, 2)], "a", "t", "GN"⟩ (by simp)).1 hb).2.1
  · exact ((vet_inclusive_boundary (-1) [("GN1", some ⟨[(1, 2)], "a", "t", "GN"⟩)]
      "GN1" ⟨[(1, 2)], "a", "t", "GN"⟩ (by simp)).2
      (by rw [hb]; exact neg_lt_zero.mpr zero_lt_one)).2

/-- C4: for every nonempty list of points P, the diagonal buffer of the
bounding box of P is invariant under any permutation of P, is unchanged by
swapping the two box corners before the haversine computation, and equals
exactly 0 when P contains a single point. -/
theorem diag_buffer_invariants (P Q : List (ℚ × ℚ)) (hP : P ≠ []) (hPQ : P.Perm Q) :
    bboxDiagBuffer P = bboxDiagBuffer Q ∧
    calc_haversine_distance (get_bounding_box P).min_x (get_bounding_box P).min_y
        (get_bounding_box P).max_x (get_bounding_box P).max_y =
      calc_haversine_distance (get_bounding_box P).max_x (get_bounding_box P).max_y
        (get_bounding_box P).min_x (get_bounding_box P).min_y ∧
    (P.length = 1 → bboxDiagBuffer P = 0) := by
  refine ⟨?_, ?_, ?_⟩
  · unfold bboxDiagBuffer
    rw [get_bounding_box_perm hPQ hP]
  · unfold calc_haversine_distance
    exact haversine_comm _ _
  · intro hlen
    match P, hlen with
    | [p], _ => exact bboxDiagBuffer_singleton p

/-- C4 witness at the two-point list ((0,0),(1,1)) and its reversal. -/
theorem diag_buffer_invariants_witness :
    bboxDiagBuffer [((0 : ℚ), (0 : ℚ)), (1, 1)] = bboxDiagBuffer [((1 : ℚ), (1 : ℚ)), (0, 0)] :=
  (diag_buffer_invariants [((0 : ℚ), (0 : ℚ)), (1, 1)] [((1 : ℚ), (1 : ℚ)), (0, 0)]
    (by decide) (by decide)).1

/-! ## Claim theorems about the Source Clients -/
/-- C2 (code bug): the OSM client builds its two Points latitude first.
With boundingbox = [south 10, north 20, west 30, east 40] the parsed Result
owns points [(10, 30), (20, 40)] — each pair is (latitude, longitude) — and
get_centroid therefore reports the mean latitude 15 in its longitude slot;
the (longitude, latitude) construction the spec describes would instead own
[(30, 10), (40, 20)]. -/
theorem osm_points_lat_long_swapped :
    OSM_populate none 2 (some [⟨some [10, 20, 30, 40], some "X", some "place", none⟩]) =
      .ok [⟨[(10, 30), (20, 40)], "X", "place", "OSM"⟩] ∧
    GeocodedLocation.get_centroid ⟨[(10, 30), (20, 40)], "X", "place", "OSM"⟩ = (15, 35) ∧
    ([((10 : ℚ), (30 : ℚ)), (20, 40)] : List (ℚ × ℚ)) ≠ [(30, 10), (40, 20)] := by
  refine ⟨rfl, ?_, by decide⟩
  unfold GeocodedLocation.get_centroid listMean
  norm_num

/-- C6 (code bug): parsing is not defensive in the way the spec requires.
An OSM entry missing its boundingbox raises an uncaught KeyError that
discards the valid sibling entry parsed just before it; a wholly
undecodable Maps-style body raises out of json.loads uncaught; a decoded
Gazetteer-style body without the geonames key raises an uncaught KeyError
(only ValueError is caught there). -/
theorem populate_malformed_entry_aborts :
    OSM_populate none 2 (some
        [⟨some [1, 2, 3, 4], some "Good", some "place", none⟩,
         ⟨none, some "Bad", some "place", none⟩]) =
      .error "KeyError: boundingbox" ∧
    GM_populate 2 none = .error "json.loads raised ValueError" ∧
    GN_populate 2 (some ⟨none⟩) = .error "KeyError: geonames" :=
  ⟨rfl, rfl, rfl⟩

/-- C7 (code bug): a Fuzzy-gazetteer results.result node holding a single
object is never normalized to a one-element list: len() counts the keys of the object and integer indexing into the dict raises KeyError, so parsing aborts
instead of producing the one Result that the same data parsed as a
one-element list would give. -/
theorem fuzzyg_single_result_keyerror :
    FG_populate 2 (some (.one ⟨30, 10, "Onlytown", "PPL"⟩)) = .error "KeyError: 0" ∧
    FG_populate 2 (some (.many [⟨30, 10, "Onlytown", "PPL"⟩])) =
      .ok [⟨[(30, 10)], "Onlytown", "PPL", "FuzzyG"⟩] :=
  ⟨rfl, rfl⟩

/-- C8 counterexample: the OSM client does not treat a non-two-character ISO
as absent. With iso = "ZZZ" an entry whose country code is "de" is filtered
out, while with no ISO the same response yields one Result — so the Results
differ from the no-ISO run. -/
theorem osm_invalid_iso_counterexample :
    OSM_populate (some "ZZZ") 2
        (some [⟨some [1, 2, 3, 4], some "Berlin", some "place", some "de"⟩]) = .ok [] ∧
    OSM_populate none 2
        (some [⟨some [1, 2, 3, 4], some "Berlin", some "place", some "de"⟩]) =
      .ok [⟨[(1, 3), (2, 4)], "Berlin", "place", "OSM"⟩] :=
  ⟨rfl, rfl⟩

/-- C8 amended: the GM, GN and FuzzyG clients omit their country-filter
parameter whenever the ISO value is not a two-character string, building the
same request as with no ISO at all; the OSM client, however, applies its
lowercased-equality country filter for every non-None ISO (results lacking a
country code are kept via keep_unsure), so a non-two-character ISO excludes
every result that carries one. -/
theorem iso_filter_amended (s : String) (hs : s.length ≠ 2) :
    GM_build_components (some s) = GM_build_components none ∧
    GN_build_country (some s) = GN_build_country none ∧
    FG_build_cc (some s) = FG_build_cc none ∧
    (∀ e : OSMEntry, in_correct_country (some s) true e =
      match e.address_country_code with
      | some cc => pyLower cc == pyLower s
      | none => true) := by
  refine ⟨?_, ?_, ?_, fun e => rfl⟩
  · unfold GM_build_components
    simp [hs]
  · unfold GN_build_country
    simp [hs]
  · unfold FG_build_cc
    simp [hs]

/-- C8 amended witness at the three-character ISO "ZZZ". -/
theorem iso_filter_amended_witness :
    GM_build_components (some "ZZZ") = GM_build_components none ∧
    GN_build_country (some "ZZZ") = GN_build_country none ∧
    FG_build_cc (some "ZZZ") = FG_build_cc none :=
  let h := iso_filter_amended "ZZZ" (by decide)
  ⟨h.1, h.2.1, h.2.2.1⟩

/-! ### Ordering lemmas for the prefix sort -/
theorem charListLe_refl (l : List Char) : charListLe l l = true := by
  induction l with
  | nil => rfl
  | cons a l ih => simp [charListLe, lt_irrefl, ih]

theorem lowerLe_refl (s : String) : lowerLe s s :=
  charListLe_refl (pyLower s).data

theorem charListLe_head_lt {a b : Char} (h : a < b) (as bs : List Char) :
    charListLe (a :: as) (b :: bs) = true := by
  simp [charListLe, h]

theorem charListLe_head_gt {a b : Char} (h : b < a) (as bs : List Char) :
    charListLe (a :: as) (b :: bs) = false := by
  simp [charListLe, h, not_lt_of_lt h]

theorem pyLower_append (a b : String) :
    (pyLower (a ++ b)).data = (pyLower a).data ++ (pyLower b).data := by
  unfold pyLower
  show ((a ++ b).data.map Char.toLower) = _
  rw [String.data_append, List.map_append]

theorem pipelinePfx_head (p : String) (hp : IsPipelinePfx p) (hne : p ≠ "best") :
    ∃ c t, (pyLower p).data = c :: t ∧ 'b' < c := by
  rcases hp with rfl | ⟨t, ht, k, rfl⟩
  · exact absurd rfl hne
  · simp only [List.mem_cons, List.mem_singleton, List.not_mem_nil, or_false] at ht
    rcases ht with rfl | rfl | rfl | rfl
    · exact ⟨'g', _, by rw [pyLower_append]; rfl, by decide⟩
    · exact ⟨'o', _, by rw [pyLower_append]; rfl, by decide⟩
    · exact ⟨'g', _, by rw [pyLower_append]; rfl, by decide⟩
    · exact ⟨'f', _, by rw [pyLower_append]; rfl, by decide⟩

theorem lowerLe_best_of_pipeline (p : String) (hp : IsPipelinePfx p) : lowerLe "best" p := by
  rcases Classical.em (p = "best") with rfl | hne
  · exact lowerLe_refl "best"
  · obtain ⟨c, t, hdata, hc⟩ := pipelinePfx_head p hp hne
    unfold lowerLe
    rw [hdata]
    show charListLe ('b' :: ['e', 's', 't']) (c :: t) = true
    exact charListLe_head_lt hc _ _

theorem not_lowerLe_pipeline_best (p : String) (hp : IsPipelinePfx p) (hne : p ≠ "best") :
    ¬ lowerLe p "best" := by
  obtain ⟨c, t, hdata, hc⟩ := pipelinePfx_head p hp hne
  unfold lowerLe
  rw [hdata]
  show ¬ charListLe (c :: t) ('b' :: ['e', 's', 't']) = true
  rw [charListLe_head_gt hc]
  simp

theorem mem_sortedPrefixList_pipeline (cols : List String)
    (hform : ∀ c ∈ cols, IsPipelinePfx (colPfx c)) (p : String)
    (hp : p ∈ sortedPrefixList cols) : IsPipelinePfx p := by
  have h1 : p ∈ pyUnique (cols.map colPfx) :=
    (List.perm_insertionSort lowerLe _).mem_iff.mp hp
  have h2 : p ∈ cols.map colPfx := (mem_pyUnique _ p).mp h1
  obtain ⟨c, hc, rfl⟩ := List.mem_map.mp h2
  exact hform c hc

/-! ### Claim theorems about rearrange_fields -/
/-- C5 counterexample: on the concrete column set GM1_{name,type,lat,long,
buffer}, rearrange_fields emits the suffixes of each group in the order
[name, type, lat, long, buffer] — latitude before longitude — and not in
the claimed order [name, type, long, lat, buffer]. -/
theorem rearrange_fields_suffix_order_counterexample :
    rearrange_fields ["GM1_name", "GM1_type", "GM1_lat", "GM1_long", "GM1_buffer"] =
      ["best_name", "best_type", "best_lat", "best_long", "best_buffer",
       "GM1_name", "GM1_type", "GM1_lat", "GM1_long", "GM1_buffer"] ∧
    rearrange_fields ["GM1_name", "GM1_type", "GM1_lat", "GM1_long", "GM1_buffer"] ≠
      ["best_name", "best_type", "best_long", "best_lat", "best_buffer",
       "GM1_name", "GM1_type", "GM1_long", "GM1_lat", "GM1_buffer"] := by
  constructor
  · decide
  · decide

/-- C5 amended: for any column set produced by the batch pipeline (every
column carries an underscore, and every prefix is best or a provider tag
followed by a rank), rearrange_fields groups columns by the prefix before
the first underscore, orders the prefix groups case-insensitively
alphabetically with best always the first group, and within every group
emits the attribute suffixes in exactly the order
[name, type, lat, long, buffer] — i.e. latitude before longitude, not the
claimed longitude-before-latitude. -/
theorem rearrange_fields_amended (cols : List String)
    (hund : ∀ c ∈ cols, '_' ∈ c.data)
    (hform : ∀ c ∈ cols, IsPipelinePfx (colPfx c)) :
    (rearrangePrefixList cols).head? = some "best" ∧
    List.Sorted lowerLe (rearrangePrefixList cols) ∧
    rearrange_fields cols =
      (rearrangePrefixList cols).flatMap
        (fun p => ["name", "type", "lat", "long", "buffer"].map (fun s => p ++ "_" ++ s)) := by
  have hsorted : List.Sorted lowerLe (sortedPrefixList cols) :=
    List.sorted_insertionSort lowerLe _
  refine ⟨?_, ?_, rfl⟩
  · unfold rearrangePrefixList
    by_cases hb : "best" ∈ sortedPrefixList cols
    · rw [if_pos hb]
      rcases hsp : sortedPrefixList cols with _ | ⟨p, rest⟩
      · rw [hsp] at hb; simp at hb
      · rcases Classical.em (p = "best") with rfl | hne
        · rfl
        · exfalso
          rw [hsp] at hb hsorted
          have hbr : "best" ∈ rest := by
            rcases List.mem_cons.mp hb with h | h
            · exact absurd h.symm hne
            · exact h
          have hple : lowerLe p "best" := List.rel_of_sorted_cons hsorted _ hbr
          have hpp : IsPipelinePfx p := by
            apply mem_sortedPrefixList_pipeline cols hform
            rw [hsp]; simp
          exact not_lowerLe_pipeline_best p hpp hne hple
    · rw [if_neg hb]
      rfl
  · unfold rearrangePrefixList
    by_cases hb : "best" ∈ sortedPrefixList cols
    · rw [if_pos hb]; exact hsorted
    · rw [if_neg hb]
      rw [List.sorted_cons]
      refine ⟨?_, hsorted⟩
      intro q hq
      exact lowerLe_best_of_pipeline q (mem_sortedPrefixList_pipeline cols hform q hq)

/-- C5 amended witness at the columns GM1_name, best_buffer. -/
theorem rearrange_fields_amended_witness :
    (rearrangePrefixList ["GM1_name", "best_buffer"]).head? = some "best" :=
  (rearrange_fields_amended ["GM1_name", "best_buffer"]
    (by decide)
    (fun c hc => by
      rcases List.mem_cons.mp hc with rfl | hc'
      · exact Or.inr ⟨"GM", by decide, 0, by decide⟩
      · rcases List.mem_singleton.mp hc' with rfl
        exact Or.inl (by decide))).1

/-- C10: the output of rearrange_fields always contains the full best column
group: when no input column has prefix best, the prefix is prepended anyway,
and the reindex then creates best_name, best_type, best_lat, best_long and
best_buffer as fresh missing-valued columns. -/
theorem rearrange_fields_best_group_present (cols : List String)
    (hund : ∀ c ∈ cols, '_' ∈ c.data) :
    ∀ s ∈ get_geocoding_suffixes, ("best" ++ "_" ++ s) ∈ rearrange_fields cols := by
  intro s hs
  have hbest : "best" ∈ rearrangePrefixList cols := by
    unfold rearrangePrefixList
    by_cases hb : "best" ∈ sortedPrefixList cols
    · rw [if_pos hb]; exact hb
    · rw [if_neg hb]; simp
  unfold rearrange_fields
  rw [List.mem_flatMap]
  exact ⟨"best", hbest, List.mem_map.mpr ⟨s, hs, rfl⟩⟩

/-- C10 witness: the best group is created even when no best column exists
in the input. -/
theorem rearrange_fields_best_group_present_witness :
    ("best" ++ "_" ++ "name") ∈ rearrange_fields ["GM1_name"] :=
  rearrange_fields_best_group_present ["GM1_name"] (by decide) "name" (by decide)

theorem validate_iso2_some_of_invalid (vals : List String)
    (h : ∃ v ∈ vals, pyUpper v ∉ valid_iso2_set) :
    ∃ bad, validate_iso2 vals = some bad := by
  obtain ⟨v, hv, hbadv⟩ := h
  have hmem : pyUpper v ∈ ((pyUnique vals).map pyUpper).filter
      (fun x => decide (x ∉ valid_iso2_set)) := by
    rw [List.mem_filter]
    exact ⟨List.mem_map.mpr ⟨v, (mem_pyUnique vals v).mpr hv, rfl⟩, by simpa using hbadv⟩
  have hne : ¬ (((pyUnique vals).map pyUpper).filter
      (fun x => decide (x ∉ valid_iso2_set))).isEmpty := by
    rw [List.isEmpty_iff]
    intro hnil
    rw [hnil] at hmem
    simp at hmem
  unfold validate_iso2
  rw [if_neg hne]
  by_cases hlen : (((pyUnique vals).map pyUpper).filter
      (fun x => decide (x ∉ valid_iso2_set))).length > 1
  · rw [if_pos hlen]
    exact ⟨_, rfl⟩
  · rw [if_neg hlen]
    exact ⟨_, rfl⟩

/-- C9: the batch entry point detects configuration errors before any
per-row geocoding: an empty Google Maps key while GM is enabled and an
empty GeoNames username while GN is enabled each produce the Key Error
outcome, and, once keys and columns check out, any ISO-2 value outside the
canonical set produces the invalid-iso2s outcome naming the offending
values. Every error outcome is the same for every row geocoder, so no
network request is dispatched for a misconfigured batch. -/
theorem geocode_from_flask_config_errors {α : Type} (geocodeRow : (String → String) → α)
    (keygm geonames : String) (usetools : List String) (iso address : String) (df : InTable) :
    ("GM" ∈ usetools → keygm = "" →
      geocode_from_flask geocodeRow keygm geonames usetools iso address df =
        .err "Key Error: "
          "Google Maps has been specified as a service, a Google Maps key must be provided.") ∧
    (("GM" ∈ usetools → keygm ≠ "") → "GN" ∈ usetools → geonames = "" →
      geocode_from_flask geocodeRow keygm geonames usetools iso address df =
        .err "Key Error: "
          "Geonames has been specified as a service, a Geonames username must be provided.") ∧
    (check_keys_for_tools keygm geonames usetools = none →
      validate_columns df iso address = none →
      (∃ v ∈ df.rows.map (fun r => r iso), pyUpper v ∉ valid_iso2_set) →
      ∃ bad, validate_iso2 (df.rows.map (fun r => r iso)) = some bad ∧
        geocode_from_flask geocodeRow keygm geonames usetools iso address df =
          .err "The following iso2s provided were invalid: " bad) := by
  refine ⟨?_, ?_, ?_⟩
  · intro h1 h2
    have hk : check_keys_for_tools keygm geonames usetools =
        some "Google Maps has been specified as a service, a Google Maps key must be provided." := by
      unfold check_keys_for_tools
      rw [if_pos ⟨h1, h2⟩]
    unfold geocode_from_flask
    rw [hk]
  · intro hno h1 h2
    have hk : check_keys_for_tools keygm geonames usetools =
        some "Geonames has been specified as a service, a Geonames username must be provided." := by
      unfold check_keys_for_tools
      rw [if_neg (fun hc => hno hc.1 hc.2), if_pos ⟨h1, h2⟩]
    unfold geocode_from_flask
    rw [hk]
  · intro hk hc hbad
    obtain ⟨bad, hbad2⟩ := validate_iso2_some_of_invalid _ hbad
    refine ⟨bad, hbad2, ?_⟩
    unfold geocode_from_flask
    rw [hk, hc, hbad2]

/-- C9 witness: an enabled GM with an empty key is rejected; with keys and
columns fine, a row carrying the invalid ISO-2 value "ZZ" is rejected
naming it, and the outcome carries no geocoded rows. -/
theorem geocode_from_flask_config_errors_witness :
    (geocode_from_flask (fun r => r "addr") "" "user" ["GM"] "iso2" "addr"
        ⟨["iso2", "addr"], []⟩ =
      .err "Key Error: "
        "Google Maps has been specified as a service, a Google Maps key must be provided.") ∧
    (∃ bad, validate_iso2
        ((InTable.mk ["iso2", "addr"]
          [fun c => if c = "iso2" then "ZZ" else "x"]).rows.map (fun r => r "iso2")) = some bad ∧
      geocode_from_flask (fun r => r "addr") "k" "user" ["GM", "OSM"] "iso2" "addr"
          ⟨["iso2", "addr"], [fun c => if c = "iso2" then "ZZ" else "x"]⟩ =
        .err "The following iso2s provided were invalid: " bad) := by
  constructor
  · exact (geocode_from_flask_config_errors (fun r => r "addr") "" "user" ["GM"] "iso2" "addr"
      ⟨["iso2", "addr"], []⟩).1 (by decide) rfl
  · exact (geocode_from_flask_config_errors (fun r => r "addr") "k" "user" ["GM", "OSM"]
      "iso2" "addr" ⟨["iso2", "addr"], [fun c => if c = "iso2" then "ZZ" else "x"]⟩).2.2
      (by decide) (by decide) ⟨"ZZ", by decide, by decide⟩

end BatchGeocode

